import Mathlib

/-!
Verification of the VoiceCoPilot client streaming/transcript core.

This file gives a shallow embedding, in Lean, of the client-side code of the
repository: the Zustand transcript store (addMessage, updateOrAppendDraft,
finalizeDraft, appendToLastMessage), the WebSocket transcript handler
(onTranscript in useLiveStreaming), the suggestion debounce/cache/abort
pipeline, the AudioWebSocket config/audio send logic, the audio-capture start
path, and the stop-streaming sequence.  Pure functions of the source become
Lean functions; stateful code becomes explicit state passing; timers and
network callbacks become explicit events.  Theorems about these definitions
settle the specification claims.
-/

namespace VoiceCoPilot

/-- Speaker channel of a transcript entry: the local user ("user") or the
interlocutor ("other"). -/
inductive Role
  | user
  | other
  deriving DecidableEq, BEq, Repr

/-- Transcript entry as stored by the app store (appStore): role, text, and the
draft flag (isDraft: live updating interim line, not yet finalized). -/
structure Message where
  role : Role
  text : String
  isDraft : Bool
  deriving DecidableEq, BEq, Repr

/-- JS whitespace test used by String.prototype.trim (ASCII part, which is all
the repository's texts use). -/
def jsWhitespace (c : Char) : Bool :=
  c = ' ' || c = '\t' || c = '\n' || c = '\r' || c = '\x0b' || c = '\x0c'

/-- Embedding of JS String.prototype.trim: strip leading and trailing
whitespace. -/
def jsTrim (s : String) : String :=
  ⟨((s.data.dropWhile jsWhitespace).reverse.dropWhile jsWhitespace).reverse⟩

/-- Replace the last element of the transcript (JS: next[next.length - 1] = m;
only reached in the store when the transcript is nonempty). -/
def setLast (transcript : List Message) (m : Message) : List Message :=
  transcript.dropLast ++ [m]

/-- Store action addMessage: append a final (non-draft) message. -/
def addMessage (transcript : List Message) (role : Role) (text : String) :
    List Message :=
  transcript ++ [{ role := role, text := text, isDraft := false }]

/-- Store action updateOrAppendDraft: update the trailing draft line of the
role in place, or append a new draft line. -/
def updateOrAppendDraft (transcript : List Message) (role : Role)
    (text : String) : List Message :=
  match transcript.getLast? with
  | some last =>
      if last.role = role ∧ last.isDraft then
        setLast transcript { last with text := text }
      else
        transcript ++ [{ role := role, text := text, isDraft := true }]
  | none => transcript ++ [{ role := role, text := text, isDraft := true }]

/-- Store action finalizeDraft: mark the trailing draft of the role as final;
otherwise leave the state unchanged. -/
def finalizeDraft (transcript : List Message) (role : Role) : List Message :=
  match transcript.getLast? with
  | some last =>
      if last.role = role ∧ last.isDraft then
        setLast transcript { last with isDraft := false }
      else transcript
  | none => transcript

/-- Store action appendToLastMessage: append text (space-joined, trimmed) to
the trailing non-draft message of the role, else append a new final message. -/
def appendToLastMessage (transcript : List Message) (role : Role)
    (text : String) : List Message :=
  match transcript.getLast? with
  | some last =>
      if last.role = role ∧ last.isDraft = false then
        setLast transcript { last with text := jsTrim (last.text ++ " " ++ text) }
      else
        transcript ++ [{ role := role, text := text, isDraft := false }]
  | none => transcript ++ [{ role := role, text := text, isDraft := false }]

/-- One transcript-store operation (all store actions except clearTranscript). -/
inductive StoreOp
  | add (role : Role) (text : String)
  | draft (role : Role) (text : String)
  | finalize (role : Role)
  | appendLast (role : Role) (text : String)
  deriving DecidableEq, Repr

/-- Apply one store operation to a transcript. -/
def applyOp (transcript : List Message) : StoreOp → List Message
  | .add role text => addMessage transcript role text
  | .draft role text => updateOrAppendDraft transcript role text
  | .finalize role => finalizeDraft transcript role
  | .appendLast role text => appendToLastMessage transcript role text

/-- Apply a sequence of store operations, left to right. -/
def applyOps (transcript : List Message) (ops : List StoreOp) : List Message :=
  ops.foldl applyOp transcript

/-- Number of draft entries of a given channel in the transcript. -/
def draftCount (transcript : List Message) (role : Role) : Nat :=
  (transcript.filter (fun m => m.isDraft && m.role == role)).length

/-- The at-most-one-draft-per-channel property claimed of the store. -/
def atMostOneDraftPerChannel (transcript : List Message) : Prop :=
  ∀ role, draftCount transcript role ≤ 1

/-- No two adjacent transcript entries are drafts of the same channel. -/
def noAdjacentSameChannelDrafts (transcript : List Message) : Prop :=
  List.Chain'
    (fun a b => ¬ (a.isDraft = true ∧ b.isDraft = true ∧ a.role = b.role))
    transcript

section StoreLemmas

/-- Auxiliary: setLast keeps the length of a nonempty transcript. -/
theorem setLast_length (s : List Message) (m : Message) (h : s ≠ []) :
    (setLast s m).length = s.length := by
  simp only [setLast, List.length_append, List.length_dropLast,
    List.length_cons, List.length_nil]
  have : 1 ≤ s.length := List.length_pos.mpr h
  omega

/-- Auxiliary: setLast leaves all entries except the last one unchanged. -/
theorem setLast_take (s : List Message) (m : Message) :
    (setLast s m).take (s.length - 1) = s.take (s.length - 1) := by
  rcases s.eq_nil_or_concat with rfl | ⟨l, a, rfl⟩
  · simp [setLast]
  · simp only [List.concat_eq_append, setLast, List.dropLast_concat,
      List.length_append, List.length_cons, List.length_nil]
    have h : l.length + (0 + 1) - 1 = l.length := by omega
    rw [h, List.take_left, List.take_left]

/-- Auxiliary: appending one element leaves the old prefix unchanged. -/
theorem append_take (s : List Message) (m : Message) (n : Nat)
    (h : n ≤ s.length) : (s ++ [m]).take n = s.take n := by
  rw [List.take_append_of_le_length h]

/-- Auxiliary shape lemma: each store operation either appends exactly one
entry or keeps the length and only touches the last entry. -/
theorem applyOp_shape (s : List Message) (op : StoreOp) :
    (∃ m, applyOp s op = s ++ [m]) ∨
      ((applyOp s op).length = s.length ∧
        (applyOp s op).take (s.length - 1) = s.take (s.length - 1)) := by
  cases op with
  | add role text => exact Or.inl ⟨_, rfl⟩
  | draft role text =>
      cases hl : s.getLast? with
      | none =>
          exact Or.inl ⟨{ role := role, text := text, isDraft := true },
            by simp [applyOp, updateOrAppendDraft, hl]⟩
      | some last =>
          by_cases hc : last.role = role ∧ last.isDraft
          · have hne : s ≠ [] := by
              intro h; rw [h] at hl; simp at hl
            have heq : applyOp s (.draft role text)
                = setLast s { last with text := text } := by
              simp [applyOp, updateOrAppendDraft, hl, hc]
            rw [heq]
            exact Or.inr ⟨setLast_length s _ hne, setLast_take s _⟩
          · exact Or.inl ⟨{ role := role, text := text, isDraft := true },
              by simp [applyOp, updateOrAppendDraft, hl, hc]⟩
  | finalize role =>
      cases hl : s.getLast? with
      | none =>
          have heq : applyOp s (.finalize role) = s := by
            simp [applyOp, finalizeDraft, hl]
          rw [heq]
          exact Or.inr ⟨rfl, rfl⟩
      | some last =>
          by_cases hc : last.role = role ∧ last.isDraft
          · have hne : s ≠ [] := by
              intro h; rw [h] at hl; simp at hl
            have heq : applyOp s (.finalize role)
                = setLast s { last with isDraft := false } := by
              simp [applyOp, finalizeDraft, hl, hc]
            rw [heq]
            exact Or.inr ⟨setLast_length s _ hne, setLast_take s _⟩
          · have heq : applyOp s (.finalize role) = s := by
              simp [applyOp, finalizeDraft, hl, hc]
            rw [heq]
            exact Or.inr ⟨rfl, rfl⟩
  | appendLast role text =>
      cases hl : s.getLast? with
      | none =>
          exact Or.inl ⟨{ role := role, text := text, isDraft := false },
            by simp [applyOp, appendToLastMessage, hl]⟩
      | some last =>
          by_cases hc : last.role = role ∧ last.isDraft = false
          · have hne : s ≠ [] := by
              intro h; rw [h] at hl; simp at hl
            have heq : applyOp s (.appendLast role text)
                = setLast s { last with text := jsTrim (last.text ++ " " ++ text) } := by
              simp [applyOp, appendToLastMessage, hl, hc]
            rw [heq]
            exact Or.inr ⟨setLast_length s _ hne, setLast_take s _⟩
          · exact Or.inl ⟨{ role := role, text := text, isDraft := false },
              by simp [applyOp, appendToLastMessage, hl, hc]⟩

/-- Auxiliary frame lemma: no store operation changes any entry other than the
last one. -/
theorem applyOp_take (s : List Message) (op : StoreOp) :
    (applyOp s op).take (s.length - 1) = s.take (s.length - 1) := by
  rcases applyOp_shape s op with ⟨m, hm⟩ | ⟨_, h⟩
  · rw [hm, append_take s m _ (by omega)]
  · exact h

/-- Auxiliary: no store operation decreases the length. -/
theorem applyOp_length_ge (s : List Message) (op : StoreOp) :
    s.length ≤ (applyOp s op).length := by
  rcases applyOp_shape s op with ⟨m, hm⟩ | ⟨h, _⟩
  · rw [hm]; simp
  · omega

end StoreLemmas

section DraftDiscipline

/-- Auxiliary: appending a single element to a chain stays a chain when the
element is compatible with the old last element. -/
theorem chain'_append_single {R : Message → Message → Prop} {s : List Message}
    {m : Message} (h : List.Chain' R s)
    (hlast : ∀ a, s.getLast? = some a → R a m) :
    List.Chain' R (s ++ [m]) := by
  rw [List.chain'_append]
  refine ⟨h, List.chain'_singleton m, ?_⟩
  intro x hx y hy
  simp only [List.head?_cons, Option.mem_def, Option.some.injEq] at hy
  subst hy
  exact hlast x hx

/-- Auxiliary: replacing the last element of a chain stays a chain when every
edge into the old last element transfers to the new one. -/
theorem chain'_setLast {R : Message → Message → Prop} {s : List Message}
    {last m : Message} (h : List.Chain' R s) (hl : s.getLast? = some last)
    (hcompat : ∀ a, R a last → R a m) :
    List.Chain' R (setLast s m) := by
  have hne : s ≠ [] := by intro hs; rw [hs] at hl; simp at hl
  have hdecomp : s.dropLast ++ [s.getLast hne] = s :=
    List.dropLast_append_getLast hne
  have hlast_eq : s.getLast hne = last := by
    have := List.getLast?_eq_getLast s hne
    rw [hl] at this
    exact (Option.some.injEq _ _ ▸ this.symm)
  rw [← hdecomp, hlast_eq] at h
  rw [List.chain'_append] at h
  apply chain'_append_single h.1
  intro a ha
  exact hcompat a (h.2.2 a ha last (by simp))

/-- Auxiliary: every store operation preserves the
no-adjacent-same-channel-drafts invariant. -/
theorem noAdj_applyOp (s : List Message) (op : StoreOp)
    (h : noAdjacentSameChannelDrafts s) :
    noAdjacentSameChannelDrafts (applyOp s op) := by
  unfold noAdjacentSameChannelDrafts at *
  cases op with
  | add role text =>
      apply chain'_append_single h
      intro a _
      rintro ⟨_, hb, _⟩
      simp at hb
  | draft role text =>
      cases hl : s.getLast? with
      | none =>
          have hs : s = [] := List.getLast?_eq_none_iff.mp hl
          subst hs
          simp [applyOp, updateOrAppendDraft]
      | some last =>
          by_cases hc : last.role = role ∧ last.isDraft
          · have heq : applyOp s (.draft role text)
                = setLast s { last with text := text } := by
              simp [applyOp, updateOrAppendDraft, hl, hc]
            rw [heq]
            refine chain'_setLast h hl ?_
            intro a ha
            simpa using ha
          · have heq : applyOp s (.draft role text)
                = s ++ [{ role := role, text := text, isDraft := true }] := by
              simp [applyOp, updateOrAppendDraft, hl, hc]
            rw [heq]
            apply chain'_append_single h
            intro a ha
            rw [hl] at ha
            cases ha
            rintro ⟨ha1, _, ha3⟩
            exact hc ⟨ha3, ha1⟩
  | finalize role =>
      cases hl : s.getLast? with
      | none =>
          have heq : applyOp s (.finalize role) = s := by
            simp [applyOp, finalizeDraft, hl]
          rwa [heq]
      | some last =>
          by_cases hc : last.role = role ∧ last.isDraft
          · have heq : applyOp s (.finalize role)
                = setLast s { last with isDraft := false } := by
              simp [applyOp, finalizeDraft, hl, hc]
            rw [heq]
            refine chain'_setLast h hl ?_
            intro a _
            rintro ⟨_, hb, _⟩
            simp at hb
          · have heq : applyOp s (.finalize role) = s := by
              simp [applyOp, finalizeDraft, hl, hc]
            rwa [heq]
  | appendLast role text =>
      cases hl : s.getLast? with
      | none =>
          have hs : s = [] := List.getLast?_eq_none_iff.mp hl
          subst hs
          simp [applyOp, appendToLastMessage]
      | some last =>
          by_cases hc : last.role = role ∧ last.isDraft = false
          · have heq : applyOp s (.appendLast role text)
                = setLast s { last with text := jsTrim (last.text ++ " " ++ text) } := by
              simp [applyOp, appendToLastMessage, hl, hc]
            rw [heq]
            refine chain'_setLast h hl ?_
            intro a ha
            simpa using ha
          · have heq : applyOp s (.appendLast role text)
                = s ++ [{ role := role, text := text, isDraft := false }] := by
              simp [applyOp, appendToLastMessage, hl, hc]
            rw [heq]
            apply chain'_append_single h
            intro a _
            rintro ⟨_, hb, _⟩
            simp at hb

/-- Auxiliary: the invariant holds for every state reachable by store
operations from a state satisfying it. -/
theorem noAdj_applyOps (ops : List StoreOp) :
    ∀ s, noAdjacentSameChannelDrafts s →
      noAdjacentSameChannelDrafts (applyOps s ops) := by
  induction ops with
  | nil => intro s h; exact h
  | cons op ops ih =>
      intro s h
      exact ih (applyOp s op) (noAdj_applyOp s op h)

end DraftDiscipline

/-- C6 (counterexample): the claim "at most one draft entry per channel exists
at any time" is false: interleaving draft updates user/other/user through
updateOrAppendDraft reaches a state with two draft entries on the user
channel. -/
theorem store_two_drafts_same_channel :
    ¬ atMostOneDraftPerChannel
      (applyOps []
        [StoreOp.draft Role.user "a", StoreOp.draft Role.other "b",
          StoreOp.draft Role.user "c"]) :=
  fun h => absurd (h Role.user) (by decide)

/-- C6 (amended): for every reachable transcript state, no two adjacent
entries are drafts of the same channel (so the trailing entry is the only
draft that is ever updated in place), and every store operation leaves all
entries except the trailing one unchanged — in particular a non-draft entry
other than the trailing one is never mutated.  Multiple non-adjacent draft
entries per channel can, however, coexist. -/
theorem store_draft_discipline :
    (∀ ops : List StoreOp, noAdjacentSameChannelDrafts (applyOps [] ops)) ∧
      (∀ (s : List Message) (op : StoreOp),
        (applyOp s op).take (s.length - 1) = s.take (s.length - 1)) :=
  ⟨fun ops => noAdj_applyOps ops [] (by simp [noAdjacentSameChannelDrafts]),
    fun s op => applyOp_take s op⟩

/-- C10: Frame property of the transcript store: every store operation other
than clearTranscript (addMessage, updateOrAppendDraft, finalizeDraft,
appendToLastMessage) leaves every transcript entry except the last-indexed one
unchanged and never decreases the transcript's length: each either appends
exactly one entry, or keeps the length and replaces at most the final entry. -/
theorem transcript_store_frame_property (s : List Message) (op : StoreOp) :
    s.length ≤ (applyOp s op).length ∧
      (applyOp s op).take (s.length - 1) = s.take (s.length - 1) ∧
      ((∃ m, applyOp s op = s ++ [m]) ∨ (applyOp s op).length = s.length) := by
  refine ⟨applyOp_length_ge s op, applyOp_take s op, ?_⟩
  rcases applyOp_shape s op with ⟨m, hm⟩ | ⟨h, _⟩
  · exact Or.inl ⟨m, hm⟩
  · exact Or.inr h

/-! Reconciler state of useLiveStreaming: the per-channel last accepted
transcription text (lastTranscriptRef, initialized to empty strings) plus the
store transcript written through addMessage. -/

/-- State touched by the onTranscript handler of useLiveStreaming. -/
structure RecState where
  lastUser : String
  lastOther : String
  transcript : List Message
  deriving DecidableEq, Repr

/-- Read lastTranscriptRef for a channel key. -/
def lastOf (s : RecState) : Role → String
  | .user => s.lastUser
  | .other => s.lastOther

/-- Write lastTranscriptRef for a channel key. -/
def writeLastOf (s : RecState) (r : Role) (t : String) : RecState :=
  match r with
  | .user => { s with lastUser := t }
  | .other => { s with lastOther := t }

/-- Events seen by the client reconciler: an inbound transcription message
from the backend, or the forwarding of locally recognized text to the backend
(sendClientTranscript), which touches no reconciler state in the source. -/
inductive RecEvent
  | transcription (speaker : Role) (text : String)
  | clientForward (text : String)
  deriving DecidableEq, Repr

/-- Embedding of the onTranscript handler of useLiveStreaming (drop events of
the other channel in single-speaker mode; trim; drop empty; drop a text equal
to the channel's last accepted text; otherwise record the trimmed text and
append the raw text as a final message), together with the effect of
sendClientTranscript on this state, which is none. -/
def recStep (singleSpeakerMode : Bool) (s : RecState) : RecEvent → RecState
  | .transcription speaker text =>
      if singleSpeakerMode ∧ speaker = Role.other then s
      else
        let t := jsTrim text
        if t = "" then s
        else if lastOf s speaker = t then s
        else { writeLastOf s speaker t with
                 transcript := addMessage s.transcript speaker text }
  | .clientForward _ => s

/-- Run the reconciler over a list of events, left to right. -/
def recSteps (singleSpeakerMode : Bool) (s : RecState) (evs : List RecEvent) :
    RecState :=
  evs.foldl (recStep singleSpeakerMode) s

/-- C1 (counterexample): after forwarding the locally-finalized phrase
"hello", the first inbound transcription with exactly that text is NOT dropped
(it appends an entry), and the second and third inbound occurrences ARE
dropped — the reverse of the claimed single-use suppression. -/
theorem echo_suppression_counterexample :
    (recSteps false ⟨"", "", []⟩
        [RecEvent.clientForward "hello",
          RecEvent.transcription Role.user "hello"]).transcript
      = [{ role := Role.user, text := "hello", isDraft := false }] ∧
    (recSteps false ⟨"", "", []⟩
        [RecEvent.clientForward "hello",
          RecEvent.transcription Role.user "hello",
          RecEvent.transcription Role.user "hello"]).transcript
      = [{ role := Role.user, text := "hello", isDraft := false }] ∧
    (recSteps false ⟨"", "", []⟩
        [RecEvent.clientForward "hello",
          RecEvent.transcription Role.user "hello",
          RecEvent.transcription Role.user "hello",
          RecEvent.transcription Role.user "hello"]).transcript
      = [{ role := Role.user, text := "hello", isDraft := false }] := by
  refine ⟨?_, ?_, ?_⟩ <;> rfl

/-- Auxiliary: reading the channel just written. -/
theorem lastOf_writeLastOf (s : RecState) (r : Role) (t : String) :
    lastOf (writeLastOf s r t) r = t := by
  cases r <;> rfl

/-- C1 (amended): duplicate suppression on a transcript channel is keyed on
the last accepted text and is not single-use: forwarding a phrase arms
nothing; an inbound transcription whose trimmed text equals the channel's
last accepted text is dropped, and stays dropped on every repetition; an
accepted text is appended and becomes the new suppression key, so an
immediately repeated identical text is then dropped. -/
theorem echo_suppression_amended (single : Bool) (s : RecState) (ch : Role)
    (t p : String) (hmode : ¬ (single = true ∧ ch = Role.other))
    (ht : jsTrim t ≠ "") :
    recStep single s (RecEvent.clientForward p) = s ∧
    (lastOf s ch = jsTrim t →
      recStep single s (RecEvent.transcription ch t) = s) ∧
    (lastOf s ch ≠ jsTrim t →
      (recStep single s (RecEvent.transcription ch t)).transcript
          = s.transcript ++ [{ role := ch, text := t, isDraft := false }] ∧
      lastOf (recStep single s (RecEvent.transcription ch t)) ch = jsTrim t ∧
      recStep single (recStep single s (RecEvent.transcription ch t))
          (RecEvent.transcription ch t)
        = recStep single s (RecEvent.transcription ch t)) := by
  refine ⟨rfl, ?_, ?_⟩
  · intro hdup
    simp [recStep, hmode, ht, hdup]
  · intro hnew
    have hstep : recStep single s (RecEvent.transcription ch t)
        = { writeLastOf s ch (jsTrim t) with
              transcript := addMessage s.transcript ch t } := by
      simp [recStep, hmode, ht, hnew]
    have hlast : lastOf (recStep single s (RecEvent.transcription ch t)) ch
        = jsTrim t := by
      rw [hstep]
      have : lastOf { writeLastOf s ch (jsTrim t) with
          transcript := addMessage s.transcript ch t } ch
          = lastOf (writeLastOf s ch (jsTrim t)) ch := by
        cases ch <;> rfl
      rw [this, lastOf_writeLastOf]
    have hdrop : ∀ s2 : RecState, lastOf s2 ch = jsTrim t →
        recStep single s2 (RecEvent.transcription ch t) = s2 := by
      intro s2 h2
      simp [recStep, hmode, ht, h2]
    exact ⟨by rw [hstep]; rfl, hlast, hdrop _ hlast⟩

/-- C1 (amended) witness at a concrete input: empty initial state, user
channel, phrase "hello". -/
theorem echo_suppression_amended_witness :
    recStep false ⟨"", "", []⟩ (RecEvent.clientForward "x") = ⟨"", "", []⟩ ∧
    (lastOf ⟨"", "", []⟩ Role.user = jsTrim "hello" →
      recStep false ⟨"", "", []⟩ (RecEvent.transcription Role.user "hello")
        = ⟨"", "", []⟩) ∧
    (lastOf ⟨"", "", []⟩ Role.user ≠ jsTrim "hello" →
      (recStep false ⟨"", "", []⟩
          (RecEvent.transcription Role.user "hello")).transcript
          = ([] : List Message)
            ++ [{ role := Role.user, text := "hello", isDraft := false }] ∧
      lastOf (recStep false ⟨"", "", []⟩
          (RecEvent.transcription Role.user "hello")) Role.user
          = jsTrim "hello" ∧
      recStep false
          (recStep false ⟨"", "", []⟩ (RecEvent.transcription Role.user "hello"))
          (RecEvent.transcription Role.user "hello")
        = recStep false ⟨"", "", []⟩ (RecEvent.transcription Role.user "hello")) :=
  echo_suppression_amended false ⟨"", "", []⟩ Role.user "hello" "x"
    (by decide) (by decide)

/-! Triggering rule of the suggestions effect in useLiveStreaming: the effect
returns early when the transcript is empty, or when the last entry is not on
the other channel while some other-channel entry exists; otherwise it restarts
the debounce. -/

/-- Embedding of the early-return condition of the suggestions effect: true
iff the debounce timer is (re)started for this transcript state. -/
def triggersDebounce (transcript : List Message) : Bool :=
  if transcript.length = 0 then false
  else if (transcript.getLast?).map Message.role ≠ some Role.other
      ∧ transcript.any (fun m => decide (m.role = Role.other)) = true then false
  else true

/-- C2 (counterexample): a transcript whose only — and therefore last — entry
is a user-channel entry DOES start the suggestion debounce (the mic-only
path), contradicting the claim that user-channel-last states never do. -/
theorem suggestion_trigger_counterexample :
    (([{ role := Role.user, text := "Hello, how are you?", isDraft := false }]
        : List Message).getLast?).map Message.role = some Role.user ∧
    triggersDebounce
        [{ role := Role.user, text := "Hello, how are you?", isDraft := false }]
      = true := by
  exact ⟨rfl, rfl⟩

/-- C2 (amended): the debounce is started iff the transcript is nonempty and
either its last entry is on the other channel, or the transcript contains no
other-channel entry at all (mic-only transcript); the draft flag is not
consulted. -/
theorem suggestion_trigger_amended :
    triggersDebounce [] = false ∧
    ∀ (ts : List Message) (m : Message), ts.getLast? = some m →
      (triggersDebounce ts = true ↔
        (m.role = Role.other ∨ ∀ x ∈ ts, x.role = Role.user)) := by
  refine ⟨rfl, ?_⟩
  intro ts m hm
  have hne : ts ≠ [] := by
    intro h; rw [h] at hm; simp at hm
  have hlen : ¬ ts.length = 0 := by
    simp [List.length_eq_zero, hne]
  unfold triggersDebounce
  rw [if_neg hlen, hm]
  by_cases hr : m.role = Role.other
  · simp [hr]
  · by_cases hany : ts.any (fun x => decide (x.role = Role.other)) = true
    · rw [if_pos (by simp [hr, hany])]
      simp only [Bool.false_eq_true, false_iff]
      rintro (h | h)
      · exact hr h
      · obtain ⟨x, hx, hxo⟩ := List.any_eq_true.mp hany
        have hxother : x.role = Role.other := of_decide_eq_true hxo
        have hxuser := h x hx
        rw [hxuser] at hxother
        cases hxother
    · rw [if_neg (by simp [hany])]
      simp only [true_iff]
      refine Or.inr ?_
      intro x hx
      have hxo : ¬ x.role = Role.other := by
        intro hcon
        exact hany (List.any_eq_true.mpr ⟨x, hx, decide_eq_true hcon⟩)
      cases hxr : x.role with
      | user => rfl
      | other => exact absurd hxr hxo

/-- C2 (amended) witness at a concrete input: a one-entry user transcript. -/
theorem suggestion_trigger_amended_witness :
    triggersDebounce [] = false ∧
    (triggersDebounce [{ role := Role.user, text := "hi", isDraft := false }]
        = true ↔
      ((Role.user = Role.other) ∨
        ∀ x ∈ ([{ role := Role.user, text := "hi", isDraft := false }]
          : List Message), x.role = Role.user)) :=
  ⟨suggestion_trigger_amended.1,
    by
      have h := suggestion_trigger_amended.2
        [{ role := Role.user, text := "hi", isDraft := false }]
        { role := Role.user, text := "hi", isDraft := false } rfl
      simpa using h⟩

/-! Debounce-fire body of the suggestions effect: history slicing and
filtering, request key, cache lookup with TTL, and the resulting action. -/

/-- Constant SUGGESTION_CACHE_TTL_MS of useLiveStreaming. -/
def SUGGESTION_CACHE_TTL_MS : Nat := 15000

/-- Constant SUGGESTION_HISTORY_SIZE of useLiveStreaming. -/
def SUGGESTION_HISTORY_SIZE : Nat := 6

/-- Constant SUGGESTION_MIN_MESSAGE_CHARS of useLiveStreaming. -/
def SUGGESTION_MIN_MESSAGE_CHARS : Nat := 12

/-- Embedding of Array.prototype.slice with a negative index: the last n
elements (all of them when fewer). -/
def takeLast (n : Nat) (l : List Message) : List Message :=
  l.drop (l.length - n)

/-- Auxiliary recursion for the adjacent-duplicate filter: the predecessor is
the previous element of the input list, kept or not. -/
def dedupAdjacentAux (prev : Message) : List Message → List Message
  | [] => []
  | b :: rest =>
      if b.text = prev.text ∧ b.role = prev.role then dedupAdjacentAux b rest
      else b :: dedupAdjacentAux b rest

/-- Embedding of the duplicate collapse in the debounce body: drop an element
whose text and role both equal those of the previous input element. -/
def dedupAdjacent : List Message → List Message
  | [] => []
  | a :: rest => a :: dedupAdjacentAux a rest

/-- Embedding of the history preparation in the debounce body: last six
entries, user-only in single-speaker mode, minimum trimmed length, adjacent
duplicate collapse. -/
def filteredHistory (transcript : List Message) (singleSpeakerMode : Bool) :
    List Message :=
  let raw := takeLast SUGGESTION_HISTORY_SIZE transcript
  let raw := if singleSpeakerMode then
      raw.filter (fun m => decide (m.role = Role.user))
    else raw
  let raw := raw.filter
    (fun m => decide (SUGGESTION_MIN_MESSAGE_CHARS ≤ (jsTrim m.text).length))
  dedupAdjacent raw

/-- Request key built in the debounce body (JSON.stringify of the role:text
lines, the free-text context, and the project id with default "default");
modelled as the structured triple, whose equality agrees with equality of the
serialized form. -/
structure RequestKey where
  h : List String
  c : String
  p : String
  deriving DecidableEq, Repr

/-- Wire label of a role. -/
def roleLabel : Role → String
  | .user => "user"
  | .other => "other"

/-- One serialized history line: role, colon, text. -/
def roleTextLine (m : Message) : String := roleLabel m.role ++ ":" ++ m.text

/-- Build the request key of the debounce body. -/
def mkRequestKey (history : List Message) (contextText : String)
    (projectId : Option String) : RequestKey :=
  ⟨history.map roleTextLine, contextText, projectId.getD "default"⟩

/-- Suggestion cache entry (suggestionCacheRef): key, cached list, store
time. -/
structure CacheEntry where
  key : RequestKey
  suggestions : List String
  atTime : Nat
  deriving DecidableEq, Repr

/-- What one debounce firing does: bail out on empty history (loading
cleared), publish a fresh cached list without a network call, or issue the
network request. -/
inductive FireAction
  | emptyHistory
  | cacheHit (suggestions : List String)
  | network (key : RequestKey)
  deriving DecidableEq, Repr

/-- Input captured by one debounce firing. -/
structure FireInput where
  transcript : List Message
  singleSpeakerMode : Bool
  contextText : String
  projectId : Option String
  cache : Option CacheEntry
  now : Nat

/-- Embedding of the debounce-fire body of useLiveStreaming up to the point
where it either returns without a request, serves the cache, or issues the
network call. -/
def fireAction (inp : FireInput) : FireAction :=
  let history := filteredHistory inp.transcript inp.singleSpeakerMode
  if history.length = 0 then FireAction.emptyHistory
  else
    let key := mkRequestKey history inp.contextText inp.projectId
    match inp.cache with
    | some c =>
        if c.key = key ∧ inp.now - c.atTime < SUGGESTION_CACHE_TTL_MS then
          FireAction.cacheHit c.suggestions
        else FireAction.network key
    | none => FireAction.network key

/-- Number of network calls an action performs. -/
def networkCallCount : FireAction → Nat
  | .network _ => 1
  | _ => 0

/-- Suggestions-panel state touched by a fire action. -/
structure PanelState where
  suggestions : List String
  isLoadingSuggestions : Bool
  deriving DecidableEq, Repr

/-- Synchronous state effect of a fire action (setSuggestions also clears the
loading flag in the store; a network action publishes nothing at fire time). -/
def applyFireAction (st : PanelState) : FireAction → PanelState
  | .emptyHistory => { st with isLoadingSuggestions := false }
  | .cacheHit s => { suggestions := s, isLoadingSuggestions := false }
  | .network _ => st

/-- C4: Suggestion pipeline idempotence: submitting the same qualifying
filtered history, context, and project twice, the second firing within the
cache TTL of the cached first result, publishes the cached list, clears
loading, and issues no second network call — exactly one network call is
made for the pair. -/
theorem suggestion_cache_idempotence
    (transcript : List Message) (single : Bool) (ctx : String)
    (proj : Option String) (result : List String) (t1 tc t2 : Nat)
    (hq : filteredHistory transcript single ≠ [])
    (httl : t2 - tc < SUGGESTION_CACHE_TTL_MS) :
    fireAction ⟨transcript, single, ctx, proj, none, t1⟩
        = FireAction.network
            (mkRequestKey (filteredHistory transcript single) ctx proj) ∧
    fireAction ⟨transcript, single, ctx, proj,
          some ⟨mkRequestKey (filteredHistory transcript single) ctx proj,
            result, tc⟩, t2⟩
        = FireAction.cacheHit result ∧
    (∀ st : PanelState,
      applyFireAction st (FireAction.cacheHit result)
        = { suggestions := result, isLoadingSuggestions := false }) ∧
    networkCallCount (fireAction ⟨transcript, single, ctx, proj, none, t1⟩)
        + networkCallCount (fireAction ⟨transcript, single, ctx, proj,
            some ⟨mkRequestKey (filteredHistory transcript single) ctx proj,
              result, tc⟩, t2⟩)
      = 1 := by
  have hlen : ¬ (filteredHistory transcript single).length = 0 := by
    simp [List.length_eq_zero, hq]
  have h1 : fireAction ⟨transcript, single, ctx, proj, none, t1⟩
      = FireAction.network
          (mkRequestKey (filteredHistory transcript single) ctx proj) := by
    simp [fireAction, hlen]
  have h2 : fireAction ⟨transcript, single, ctx, proj,
        some ⟨mkRequestKey (filteredHistory transcript single) ctx proj,
          result, tc⟩, t2⟩
      = FireAction.cacheHit result := by
    simp [fireAction, hlen, httl]
  refine ⟨h1, h2, fun st => rfl, ?_⟩
  rw [h1, h2]
  rfl

/-- Concrete message used by the C4 witness (the spec's scenario line). -/
def helloOtherMsg : Message :=
  { role := Role.other, text := "Hello, how are you?", isDraft := false }

/-- Concrete request key used by the C4 witness. -/
def helloKey : RequestKey :=
  mkRequestKey (filteredHistory [helloOtherMsg] false) "" none

/-- C4 witness at a concrete input: a one-entry other-channel transcript,
cache written at time 5, second firing at time 10. -/
theorem suggestion_cache_idempotence_witness :
    fireAction ⟨[helloOtherMsg], false, "", none, none, 0⟩
        = FireAction.network helloKey ∧
    fireAction ⟨[helloOtherMsg], false, "", none,
          some ⟨helloKey, ["ok"], 5⟩, 10⟩
        = FireAction.cacheHit ["ok"] ∧
    (∀ st : PanelState,
      applyFireAction st (FireAction.cacheHit ["ok"])
        = { suggestions := ["ok"], isLoadingSuggestions := false }) ∧
    networkCallCount (fireAction ⟨[helloOtherMsg], false, "", none, none, 0⟩)
        + networkCallCount (fireAction ⟨[helloOtherMsg], false, "", none,
            some ⟨helloKey, ["ok"], 5⟩, 10⟩)
      = 1 :=
  suggestion_cache_idempotence [helloOtherMsg]
    false "" none ["ok"] 0 5 10 (by decide) (by decide)


/-! AudioWebSocket (api.ts): sendConfig always records the channel config in
streamConfigs and transmits only while the socket is open; sendAudio transmits
only while the socket is open and otherwise does nothing; the onopen handler
replays every recorded channel config. -/

/-- Per-channel stream configuration recorded in streamConfigs. -/
structure WsConfigData where
  sampleRate : Nat
  channels : Nat
  source : Option String
  deriving DecidableEq, Repr

/-- One message on the wire to the backend. -/
inductive WireMsg
  | config (speaker : String) (projectId : Option String) (data : WsConfigData)
  | audio (speaker : String) (payload : List Nat)
  deriving DecidableEq, Repr

/-- State of one AudioWebSocket: readyState reached OPEN, the recorded
streamConfigs record (insertion-ordered, keyed by speaker), and the sequence
of messages actually transmitted. -/
structure WsState where
  isOpen : Bool
  streamConfigs : List (String × WsConfigData)
  wire : List WireMsg
  deriving DecidableEq, Repr

/-- JS object-key assignment on the streamConfigs record: overwrite in place
when the key exists, else append (insertion order preserved). -/
def upsertConfig (l : List (String × WsConfigData)) (k : String)
    (v : WsConfigData) : List (String × WsConfigData) :=
  if l.any (fun p => decide (p.1 = k)) then
    l.map (fun p => if p.1 = k then (k, v) else p)
  else l ++ [(k, v)]

/-- Calls into AudioWebSocket interleaved with the socket open event. -/
inductive WsCall
  | sendConfig (speaker : String) (projectId : Option String)
      (data : WsConfigData)
  | sendAudio (speaker : String) (payload : List Nat)
  | openEvt
  deriving DecidableEq, Repr

/-- Replay sequence sent by the onopen handler: one config message per
recorded channel, without a project id, as the source's spread produces. -/
def replayMsgs (l : List (String × WsConfigData)) : List WireMsg :=
  l.map (fun p => WireMsg.config p.1 none p.2)

/-- Embedding of sendConfig, sendAudio, and the onopen replay. -/
def wsStep (s : WsState) : WsCall → WsState
  | .sendConfig sp pid d =>
      if s.isOpen then
        ⟨s.isOpen, upsertConfig s.streamConfigs sp d,
          s.wire ++ [WireMsg.config sp pid d]⟩
      else ⟨s.isOpen, upsertConfig s.streamConfigs sp d, s.wire⟩
  | .sendAudio sp payload =>
      if s.isOpen then
        ⟨s.isOpen, s.streamConfigs, s.wire ++ [WireMsg.audio sp payload]⟩
      else s
  | .openEvt =>
      ⟨true, s.streamConfigs, s.wire ++ replayMsgs s.streamConfigs⟩

/-- Run a call sequence, left to right. -/
def wsRun (s : WsState) (calls : List WsCall) : WsState :=
  calls.foldl wsStep s

/-- Fresh AudioWebSocket before the socket has opened. -/
def initWs : WsState := ⟨false, [], []⟩

/-- Test for a config message of the given channel. -/
def isConfigFor (sp : String) : WireMsg → Bool
  | .config s _ _ => decide (s = sp)
  | .audio _ _ => false

/-- Test for an audio message of the given channel. -/
def isAudioFor (sp : String) : WireMsg → Bool
  | .config _ _ _ => false
  | .audio s _ => decide (s = sp)

/-- Scan of the wire: true iff no audio message of the channel occurs before
a config message of the channel (seen records a config already passed). -/
def okWireGo (sp : String) (seen : Bool) : List WireMsg → Bool
  | [] => true
  | WireMsg.config s _ _ :: rest => okWireGo sp (seen || decide (s = sp)) rest
  | WireMsg.audio s _ :: rest =>
      if decide (s = sp) && !seen then false
      else okWireGo sp seen rest

/-- The channel's first audio message on the wire, if any, is preceded by a
config message of that channel. -/
def configBeforeFirstAudio (sp : String) (w : List WireMsg) : Bool :=
  okWireGo sp false w

/-- Whether the wire contains a config message of the channel. -/
def containsCfg (sp : String) (w : List WireMsg) : Bool :=
  w.any (isConfigFor sp)

/-- Whether the streamConfigs record holds an entry for the channel. -/
def hasCfg (sp : String) (s : WsState) : Bool :=
  s.streamConfigs.any (fun p => decide (p.1 = sp))

section WsLemmas

/-- Auxiliary: the scan splits over an append. -/
theorem okWireGo_append (sp : String) (w1 w2 : List WireMsg) :
    ∀ seen, okWireGo sp seen (w1 ++ w2)
      = (okWireGo sp seen w1
          && okWireGo sp (seen || containsCfg sp w1) w2) := by
  induction w1 with
  | nil => intro seen; simp [okWireGo, containsCfg]
  | cons m rest ih =>
      intro seen
      cases m with
      | config s pid d =>
          have hor : ((seen || decide (s = sp)) || containsCfg sp rest)
              = (seen || containsCfg sp (WireMsg.config s pid d :: rest)) := by
            simp only [containsCfg, List.any_cons, isConfigFor]
            rw [Bool.or_assoc]
          show okWireGo sp (seen || decide (s = sp)) (rest ++ w2)
              = (okWireGo sp (seen || decide (s = sp)) rest
                  && okWireGo sp
                    (seen || containsCfg sp (WireMsg.config s pid d :: rest))
                    w2)
          rw [ih, hor]
      | audio s payload =>
          have hor : (seen || containsCfg sp (WireMsg.audio s payload :: rest))
              = (seen || containsCfg sp rest) := by
            simp [containsCfg, isConfigFor]
          show (if decide (s = sp) && !seen then false
                else okWireGo sp seen (rest ++ w2))
              = ((if decide (s = sp) && !seen then false
                  else okWireGo sp seen rest)
                  && okWireGo sp
                    (seen || containsCfg sp (WireMsg.audio s payload :: rest))
                    w2)
          rw [hor]
          by_cases hs : (decide (s = sp) && !seen) = true
          · rw [if_pos hs, if_pos hs]
            simp
          · rw [if_neg hs, if_neg hs, ih]

/-- Auxiliary: once a config has been seen, the scan never fails. -/
theorem okWireGo_of_seen (sp : String) (w : List WireMsg) :
    okWireGo sp true w = true := by
  induction w with
  | nil => rfl
  | cons m rest ih =>
      cases m with
      | config s pid d => simpa [okWireGo] using ih
      | audio s payload => simpa [okWireGo] using ih

/-- Auxiliary: a wire with no audio message of the channel passes the scan. -/
theorem okWireGo_of_noAudio (sp : String) (w : List WireMsg)
    (h : w.any (isAudioFor sp) = false) :
    ∀ seen, okWireGo sp seen w = true := by
  induction w with
  | nil => intro seen; rfl
  | cons m rest ih =>
      intro seen
      simp only [List.any_cons, Bool.or_eq_false_iff] at h
      cases m with
      | config s pid d => exact ih h.2 _
      | audio s payload =>
          have hs : decide (s = sp) = false := by
            simpa [isAudioFor] using h.1
          simp only [okWireGo, hs, Bool.false_and]
          rw [if_neg (by simp)]
          exact ih h.2 seen

/-- Auxiliary: upsert keeps an existing channel entry present. -/
theorem upsertConfig_keeps (l : List (String × WsConfigData)) (k sp : String)
    (v : WsConfigData) (h : l.any (fun p => decide (p.1 = sp)) = true) :
    (upsertConfig l k v).any (fun p => decide (p.1 = sp)) = true := by
  unfold upsertConfig
  by_cases hk : l.any (fun p => decide (p.1 = k)) = true
  · rw [if_pos hk]
    obtain ⟨p, hp, hpsp⟩ := List.any_eq_true.mp h
    refine List.any_eq_true.mpr
      ⟨if p.1 = k then (k, v) else p, List.mem_map_of_mem _ hp, ?_⟩
    by_cases hpk : p.1 = k
    · have hsp : sp = k := by
        have := of_decide_eq_true hpsp
        rw [← this, hpk]
      simp [hpk, hsp]
    · simpa [hpk] using hpsp
  · rw [if_neg hk]
    simp only [List.any_append]
    rw [h]
    rfl

/-- Auxiliary: upsert makes the written channel entry present. -/
theorem upsertConfig_self (l : List (String × WsConfigData)) (k : String)
    (v : WsConfigData) :
    (upsertConfig l k v).any (fun p => decide (p.1 = k)) = true := by
  unfold upsertConfig
  by_cases hk : l.any (fun p => decide (p.1 = k)) = true
  · rw [if_pos hk]
    obtain ⟨p, hp, hpk⟩ := List.any_eq_true.mp hk
    refine List.any_eq_true.mpr
      ⟨if p.1 = k then (k, v) else p, List.mem_map_of_mem _ hp, ?_⟩
    have hp1 : p.1 = k := of_decide_eq_true hpk
    simp [hp1]
  · rw [if_neg hk]
    refine List.any_eq_true.mpr ⟨(k, v), by simp, by simp⟩

/-- Auxiliary: a recorded channel entry yields a config message in the onopen
replay. -/
theorem replay_contains (sp : String) (l : List (String × WsConfigData))
    (h : l.any (fun p => decide (p.1 = sp)) = true) :
    (replayMsgs l).any (isConfigFor sp) = true := by
  obtain ⟨p, hp, hpsp⟩ := List.any_eq_true.mp h
  refine List.any_eq_true.mpr
    ⟨WireMsg.config p.1 none p.2, List.mem_map_of_mem _ hp, ?_⟩
  simpa [isConfigFor] using hpsp

/-- Auxiliary: the onopen replay consists of config messages only, so it
passes the scan from any state. -/
theorem okWireGo_replay (sp : String) (l : List (String × WsConfigData)) :
    ∀ seen, okWireGo sp seen (replayMsgs l) = true := by
  induction l with
  | nil => intro seen; rfl
  | cons p rest ih => intro seen; simpa [replayMsgs, okWireGo] using ih _

/-- Auxiliary: the onopen replay contains no audio message. -/
theorem replay_noAudio (sp : String) (l : List (String × WsConfigData)) :
    (replayMsgs l).any (isAudioFor sp) = false := by
  induction l with
  | nil => rfl
  | cons p rest ih => simpa [replayMsgs, isAudioFor] using ih

/-- Invariant once the channel's config has been recorded: the record keeps
it, the wire passes the scan, and an open socket implies the config message
is already on the wire. -/
def wsInv2 (sp : String) (s : WsState) : Prop :=
  hasCfg sp s = true ∧
  configBeforeFirstAudio sp s.wire = true ∧
  (s.isOpen = true → containsCfg sp s.wire = true)

/-- Auxiliary: wsInv2 is preserved by every call. -/
theorem wsInv2_step (sp : String) (s : WsState) (c : WsCall)
    (h : wsInv2 sp s) : wsInv2 sp (wsStep s c) := by
  obtain ⟨hcfg, hok, hopen⟩ := h
  cases c with
  | sendConfig sp2 pid d =>
      by_cases ho : s.isOpen = true
      · have hstep : wsStep s (WsCall.sendConfig sp2 pid d)
            = ⟨s.isOpen, upsertConfig s.streamConfigs sp2 d,
                s.wire ++ [WireMsg.config sp2 pid d]⟩ := by
          simp [wsStep, ho]
        rw [hstep]
        refine ⟨upsertConfig_keeps _ _ _ _ hcfg, ?_, ?_⟩
        · show okWireGo sp false (s.wire ++ [WireMsg.config sp2 pid d]) = true
          rw [okWireGo_append]
          rw [configBeforeFirstAudio] at hok
          rw [hok, Bool.true_and]
          cases hseen : (false || containsCfg sp s.wire)
          · simp [okWireGo]
          · exact okWireGo_of_seen sp _
        · intro _
          show (s.wire ++ [WireMsg.config sp2 pid d]).any (isConfigFor sp) = true
          rw [List.any_append]
          rw [containsCfg] at hopen
          rw [hopen ho]
          rfl
      · have hstep : wsStep s (WsCall.sendConfig sp2 pid d)
            = ⟨s.isOpen, upsertConfig s.streamConfigs sp2 d, s.wire⟩ := by
          simp [wsStep, ho]
        rw [hstep]
        exact ⟨upsertConfig_keeps _ _ _ _ hcfg, hok, fun hc => hopen hc⟩
  | sendAudio sp2 payload =>
      by_cases ho : s.isOpen = true
      · have hstep : wsStep s (WsCall.sendAudio sp2 payload)
            = ⟨s.isOpen, s.streamConfigs,
                s.wire ++ [WireMsg.audio sp2 payload]⟩ := by
          simp [wsStep, ho]
        rw [hstep]
        refine ⟨hcfg, ?_, ?_⟩
        · show okWireGo sp false (s.wire ++ [WireMsg.audio sp2 payload]) = true
          rw [okWireGo_append]
          rw [configBeforeFirstAudio] at hok
          rw [hok, Bool.true_and]
          have hcon : containsCfg sp s.wire = true := hopen ho
          rw [Bool.false_or, hcon]
          exact okWireGo_of_seen sp _
        · intro _
          show (s.wire ++ [WireMsg.audio sp2 payload]).any (isConfigFor sp) = true
          rw [List.any_append]
          rw [containsCfg] at hopen
          rw [hopen ho]
          rfl
      · have hstep : wsStep s (WsCall.sendAudio sp2 payload) = s := by
          simp [wsStep, ho]
        rw [hstep]
        exact ⟨hcfg, hok, hopen⟩
  | openEvt =>
      refine ⟨hcfg, ?_, ?_⟩
      · show okWireGo sp false (s.wire ++ replayMsgs s.streamConfigs) = true
        rw [okWireGo_append]
        rw [configBeforeFirstAudio] at hok
        rw [hok, Bool.true_and]
        cases hseen : (false || containsCfg sp s.wire)
        · exact okWireGo_replay sp _ _
        · exact okWireGo_of_seen sp _
      · intro _
        show (s.wire ++ replayMsgs s.streamConfigs).any (isConfigFor sp) = true
        rw [List.any_append]
        have hrep : (replayMsgs s.streamConfigs).any (isConfigFor sp) = true :=
          replay_contains sp s.streamConfigs hcfg
        rw [hrep]
        simp

/-- Auxiliary: wsInv2 is preserved by any call sequence. -/
theorem wsInv2_run (sp : String) (calls : List WsCall) :
    ∀ s, wsInv2 sp s → wsInv2 sp (wsRun s calls) := by
  induction calls with
  | nil => intro s h; exact h
  | cons c rest ih =>
      intro s h
      exact ih (wsStep s c) (wsInv2_step sp s c h)

/-- Auxiliary: before any sendAudio for the channel, no audio message of the
channel is on the wire. -/
theorem noAudio_run (sp : String) (calls : List WsCall)
    (h : ∀ e ∈ calls, ∀ payload, e ≠ WsCall.sendAudio sp payload) :
    ∀ s, s.wire.any (isAudioFor sp) = false →
      (wsRun s calls).wire.any (isAudioFor sp) = false := by
  induction calls with
  | nil => intro s hs; exact hs
  | cons c rest ih =>
      intro s hs
      have hrest : ∀ e ∈ rest, ∀ payload, e ≠ WsCall.sendAudio sp payload :=
        fun e he => h e (List.mem_cons_of_mem _ he)
      refine ih hrest (wsStep s c) ?_
      cases c with
      | sendConfig sp2 pid d =>
          by_cases ho : s.isOpen = true
          · have hstep : wsStep s (WsCall.sendConfig sp2 pid d)
                = ⟨s.isOpen, upsertConfig s.streamConfigs sp2 d,
                    s.wire ++ [WireMsg.config sp2 pid d]⟩ := by
              simp [wsStep, ho]
            rw [hstep]
            show (s.wire ++ [WireMsg.config sp2 pid d]).any (isAudioFor sp)
              = false
            rw [List.any_append, hs]
            rfl
          · have hstep : wsStep s (WsCall.sendConfig sp2 pid d)
                = ⟨s.isOpen, upsertConfig s.streamConfigs sp2 d, s.wire⟩ := by
              simp [wsStep, ho]
            rw [hstep]
            exact hs
      | sendAudio sp2 payload =>
          have hne : sp2 ≠ sp := by
            intro hEq
            exact h _ (List.mem_cons_self _ _) payload (by rw [hEq])
          by_cases ho : s.isOpen = true
          · have hstep : wsStep s (WsCall.sendAudio sp2 payload)
                = ⟨s.isOpen, s.streamConfigs,
                    s.wire ++ [WireMsg.audio sp2 payload]⟩ := by
              simp [wsStep, ho]
            rw [hstep]
            show (s.wire ++ [WireMsg.audio sp2 payload]).any (isAudioFor sp)
              = false
            rw [List.any_append, hs]
            simp [isAudioFor, hne]
          · have hstep : wsStep s (WsCall.sendAudio sp2 payload) = s := by
              simp [wsStep, ho]
            rw [hstep]
            exact hs
      | openEvt =>
          show (s.wire ++ replayMsgs s.streamConfigs).any (isAudioFor sp)
            = false
          rw [List.any_append, hs, replay_noAudio]
          rfl

end WsLemmas

/-- C5: for every sequence of sendConfig and sendAudio calls interleaved with
the socket open event, in which some sendConfig for the channel precedes the
channel's first sendAudio: (a) the channel's first audio message on the wire,
if any, is preceded by a config message of that channel; (b) sendAudio while
the socket is not open sends nothing and queues nothing; (c) opening the
socket re-sends every recorded channel config. -/
theorem ws_config_before_audio (evs1 evs2 : List WsCall) (sp : String)
    (pid : Option String) (d : WsConfigData)
    (h1 : ∀ e ∈ evs1, ∀ payload, e ≠ WsCall.sendAudio sp payload) :
    configBeforeFirstAudio sp
        (wsRun initWs (evs1 ++ WsCall.sendConfig sp pid d :: evs2)).wire
      = true ∧
    (∀ s : WsState, s.isOpen = false →
      ∀ payload, wsStep s (WsCall.sendAudio sp payload) = s) ∧
    (∀ s : WsState, hasCfg sp s = true →
      containsCfg sp (wsStep s WsCall.openEvt).wire = true) := by
  refine ⟨?_, ?_, ?_⟩
  · have hsplit : wsRun initWs (evs1 ++ WsCall.sendConfig sp pid d :: evs2)
        = wsRun (wsStep (wsRun initWs evs1) (WsCall.sendConfig sp pid d))
            evs2 := by
      simp only [wsRun, List.foldl_append, List.foldl_cons]
    rw [hsplit]
    have hA : (wsRun initWs evs1).wire.any (isAudioFor sp) = false :=
      noAudio_run sp evs1 h1 initWs rfl
    have hB : wsInv2 sp (wsStep (wsRun initWs evs1)
        (WsCall.sendConfig sp pid d)) := by
      by_cases ho : (wsRun initWs evs1).isOpen = true
      · have hstep : wsStep (wsRun initWs evs1) (WsCall.sendConfig sp pid d)
            = ⟨(wsRun initWs evs1).isOpen,
                upsertConfig (wsRun initWs evs1).streamConfigs sp d,
                (wsRun initWs evs1).wire ++ [WireMsg.config sp pid d]⟩ := by
          simp [wsStep, ho]
        rw [hstep]
        refine ⟨upsertConfig_self _ _ _, ?_, ?_⟩
        · show okWireGo sp false
            ((wsRun initWs evs1).wire ++ [WireMsg.config sp pid d]) = true
          rw [okWireGo_append,
            okWireGo_of_noAudio sp _ hA false, Bool.true_and]
          cases (false || containsCfg sp (wsRun initWs evs1).wire)
          · simp [okWireGo]
          · exact okWireGo_of_seen sp _
        · intro _
          show ((wsRun initWs evs1).wire
              ++ [WireMsg.config sp pid d]).any (isConfigFor sp) = true
          rw [List.any_append]
          simp [isConfigFor]
      · have hstep : wsStep (wsRun initWs evs1) (WsCall.sendConfig sp pid d)
            = ⟨(wsRun initWs evs1).isOpen,
                upsertConfig (wsRun initWs evs1).streamConfigs sp d,
                (wsRun initWs evs1).wire⟩ := by
          simp [wsStep, ho]
        rw [hstep]
        refine ⟨upsertConfig_self _ _ _,
          okWireGo_of_noAudio sp _ hA false, ?_⟩
        intro hcon
        exact absurd hcon ho
    exact (wsInv2_run sp evs2 _ hB).2.1
  · intro s hs payload
    simp [wsStep, hs]
  · intro s hcfgS
    show (s.wire ++ replayMsgs s.streamConfigs).any (isConfigFor sp) = true
    rw [List.any_append, replay_contains sp s.streamConfigs hcfgS]
    simp

/-- C5 witness at a concrete input: config for the user channel sent before
open, then the socket opens, then audio for the user channel is sent. -/
theorem ws_config_before_audio_witness :
    configBeforeFirstAudio "user"
        (wsRun initWs ([] ++ WsCall.sendConfig "user" (some "default")
            ⟨48000, 1, some "mic"⟩
          :: [WsCall.openEvt, WsCall.sendAudio "user" [1, 2]])).wire
      = true ∧
    (∀ s : WsState, s.isOpen = false →
      ∀ payload, wsStep s (WsCall.sendAudio "user" payload) = s) ∧
    (∀ s : WsState, hasCfg "user" s = true →
      containsCfg "user" (wsStep s WsCall.openEvt).wire = true) :=
  ws_config_before_audio [] [WsCall.openEvt, WsCall.sendAudio "user" [1, 2]]
    "user" (some "default") ⟨48000, 1, some "mic"⟩ (by simp)

/-! Suggestion request lifecycle (useLiveStreaming): on every qualifying
transcript change the effect clears the debounce timer, aborts the pending
controller, sets loading, and arms a new debounce; the debounce body either
bails out, serves the cache, or starts a request with a fresh controller; the
request continuation publishes only when its own controller is unaborted, an
AbortError is swallowed, and any other failure clears loading only when
unaborted. -/

/-- State of the suggestion pipeline.  Controllers are identified by the
order of their creation (nextId); abortedIds records every controller whose
abort() was called; published logs each setSuggestions call tagged with the
id of the request that produced the list; errorsLogged records surfaced
(non-abort) failures. -/
structure PipeState where
  nextId : Nat
  debounceArmed : Bool
  abortRef : Option Nat
  abortedIds : List Nat
  loading : Bool
  suggestions : List String
  cache : Option (Nat × List String)
  published : List (Nat × List String)
  errorsLogged : List Nat
  deriving DecidableEq, Repr

/-- Step 1 of the qualifying-change effect: clearTimeout on the debounce. -/
def clearTimer (st : PipeState) : PipeState :=
  { st with debounceArmed := false }

/-- Step 2 of the qualifying-change effect: abort the pending controller and
null the ref. -/
def abortPending (st : PipeState) : PipeState :=
  match st.abortRef with
  | some id =>
      { st with
          abortedIds := id :: st.abortedIds
          abortRef := none }
  | none => st

/-- Step 3 of the qualifying-change effect: setLoadingSuggestions(true). -/
def startLoading (st : PipeState) : PipeState :=
  { st with loading := true }

/-- Step 4 of the qualifying-change effect: arm the new debounce timer. -/
def armDebounce (st : PipeState) : PipeState :=
  { st with debounceArmed := true }

/-- Clear the abort ref when it still points at the given controller (the
finally block of the request continuation). -/
def releaseRef (st : PipeState) (id : Nat) : Option Nat :=
  if st.abortRef = some id then none else st.abortRef

/-- Events of the suggestion pipeline: a qualifying transcript change, the
debounce firing (request started with a fresh controller, cache served, or
empty history), and the three ways a started request can come back. -/
inductive PipeEvent
  | effectRun
  | fireStart
  | fireCacheHit
  | fireEmpty
  | resolve (id : Nat) (r : List String)
  | rejectAbort (id : Nat)
  | rejectOther (id : Nat)
  deriving DecidableEq, Repr

/-- Embedding of the pipeline transitions of useLiveStreaming. -/
def pipeStep (st : PipeState) : PipeEvent → PipeState
  | .effectRun => armDebounce (startLoading (abortPending (clearTimer st)))
  | .fireStart =>
      { st with
          debounceArmed := false
          abortRef := some st.nextId
          nextId := st.nextId + 1 }
  | .fireCacheHit =>
      match st.cache with
      | some (src, r) =>
          { st with
              debounceArmed := false
              suggestions := r
              loading := false
              published := st.published ++ [(src, r)] }
      | none => { st with debounceArmed := false }
  | .fireEmpty =>
      { st with
          debounceArmed := false
          loading := false }
  | .resolve id r =>
      if id ∈ st.abortedIds then { st with abortRef := releaseRef st id }
      else
        { st with
            cache := some (id, r)
            suggestions := r
            loading := false
            published := st.published ++ [(id, r)]
            abortRef := releaseRef st id }
  | .rejectAbort id => { st with abortRef := releaseRef st id }
  | .rejectOther id =>
      if id ∈ st.abortedIds then
        { st with
            errorsLogged := st.errorsLogged ++ [id]
            abortRef := releaseRef st id }
      else
        { st with
            errorsLogged := st.errorsLogged ++ [id]
            loading := false
            abortRef := releaseRef st id }

/-- Run a pipeline event sequence, left to right. -/
def pipeRun (st : PipeState) (evs : List PipeEvent) : PipeState :=
  evs.foldl pipeStep st

/-- Once superseded, a request id stays aborted, below the id allocator,
absent from the cache, and its tagged result absent from the publish log. -/
def superseded (id : Nat) (r : List String) (st : PipeState) : Prop :=
  id ∈ st.abortedIds ∧ id < st.nextId ∧
    (∀ rr, st.cache ≠ some (id, rr)) ∧ (id, r) ∉ st.published

section PipeLemmas

/-- Auxiliary: the superseded predicate is preserved by every event. -/
theorem superseded_step (id : Nat) (r : List String) (st : PipeState)
    (h : superseded id r st) : ∀ e, superseded id r (pipeStep st e) := by
  obtain ⟨hmem, hlt, hcache, hpub⟩ := h
  intro e
  cases e with
  | effectRun =>
      cases habort : st.abortRef with
      | none =>
          have hstep : pipeStep st PipeEvent.effectRun
              = ⟨st.nextId, true, none, st.abortedIds, true, st.suggestions,
                  st.cache, st.published, st.errorsLogged⟩ := by
            simp [pipeStep, armDebounce, startLoading, abortPending,
              clearTimer, habort]
          rw [hstep]
          exact ⟨hmem, hlt, hcache, hpub⟩
      | some j =>
          have hstep : pipeStep st PipeEvent.effectRun
              = ⟨st.nextId, true, none, j :: st.abortedIds, true,
                  st.suggestions, st.cache, st.published, st.errorsLogged⟩ := by
            simp [pipeStep, armDebounce, startLoading, abortPending,
              clearTimer, habort]
          rw [hstep]
          exact ⟨List.mem_cons_of_mem _ hmem, hlt, hcache, hpub⟩
  | fireStart =>
      exact ⟨hmem, Nat.lt_succ_of_lt hlt, hcache, hpub⟩
  | fireCacheHit =>
      cases hc : st.cache with
      | none =>
          have hstep : pipeStep st PipeEvent.fireCacheHit
              = { st with debounceArmed := false } := by
            simp [pipeStep, hc]
          rw [hstep]
          exact ⟨hmem, hlt, hcache, hpub⟩
      | some p =>
          obtain ⟨src, rr⟩ := p
          have hsrcne : src ≠ id := fun hEq => (hcache rr) (by rw [hc, hEq])
          have hstep : pipeStep st PipeEvent.fireCacheHit
              = { st with
                    debounceArmed := false
                    suggestions := rr
                    loading := false
                    published := st.published ++ [(src, rr)] } := by
            simp [pipeStep, hc]
          rw [hstep]
          refine ⟨hmem, hlt, hcache, ?_⟩
          intro hin
          rcases List.mem_append.mp hin with hin1 | hin2
          · exact hpub hin1
          · have hpair : (id, r) = (src, rr) := by simpa using hin2
            exact hsrcne (by injection hpair with h1 _; exact h1.symm)
  | fireEmpty => exact ⟨hmem, hlt, hcache, hpub⟩
  | resolve j rr =>
      by_cases hj : j ∈ st.abortedIds
      · have hstep : pipeStep st (PipeEvent.resolve j rr)
            = { st with abortRef := releaseRef st j } := by
          simp [pipeStep, hj]
        rw [hstep]
        exact ⟨hmem, hlt, hcache, hpub⟩
      · have hjne : j ≠ id := fun hEq => hj (hEq ▸ hmem)
        have hstep : pipeStep st (PipeEvent.resolve j rr)
            = { st with
                  cache := some (j, rr)
                  suggestions := rr
                  loading := false
                  published := st.published ++ [(j, rr)]
                  abortRef := releaseRef st j } := by
          simp [pipeStep, hj]
        rw [hstep]
        refine ⟨hmem, hlt, ?_, ?_⟩
        · intro r2 hEq
          have hj2 : j = id := by
            have := congrArg (fun o => Option.map Prod.fst o) hEq
            simpa using this
          exact hjne hj2
        · intro hin
          rcases List.mem_append.mp hin with hin1 | hin2
          · exact hpub hin1
          · have hpair : (id, r) = (j, rr) := by simpa using hin2
            exact hjne (by injection hpair with h1 _; exact h1.symm)
  | rejectAbort j => exact ⟨hmem, hlt, hcache, hpub⟩
  | rejectOther j =>
      by_cases hj : j ∈ st.abortedIds
      · have hstep : pipeStep st (PipeEvent.rejectOther j)
            = { st with
                  errorsLogged := st.errorsLogged ++ [j]
                  abortRef := releaseRef st j } := by
          simp [pipeStep, hj]
        rw [hstep]
        exact ⟨hmem, hlt, hcache, hpub⟩
      · have hstep : pipeStep st (PipeEvent.rejectOther j)
            = { st with
                  errorsLogged := st.errorsLogged ++ [j]
                  loading := false
                  abortRef := releaseRef st j } := by
          simp [pipeStep, hj]
        rw [hstep]
        exact ⟨hmem, hlt, hcache, hpub⟩

/-- Auxiliary: the superseded predicate is preserved by every event
sequence. -/
theorem superseded_run (id : Nat) (r : List String) (evs : List PipeEvent) :
    ∀ st, superseded id r st → superseded id r (pipeRun st evs) := by
  induction evs with
  | nil => intro st h; exact h
  | cons e rest ih =>
      intro st h
      exact ih (pipeStep st e) (superseded_step id r st h e)

end PipeLemmas

/-- C3: a pending suggestion request superseded by a new qualifying
transcript change is aborted before the new debounce is armed; from then on,
under any continuation of the pipeline, its tagged result list is never
published; an AbortError leaves loading, suggestions, the publish log, and
the surfaced-error log untouched; and a non-abort failure of an aborted
request does not clear loading either. -/
theorem suggestion_cancellation (s : PipeState) (id : Nat)
    (hpend : s.abortRef = some id) (hfresh : id < s.nextId)
    (hcache : ∀ rr, s.cache ≠ some (id, rr)) :
    (id ∈ (abortPending (clearTimer s)).abortedIds ∧
      (abortPending (clearTimer s)).debounceArmed = false ∧
      (pipeStep s PipeEvent.effectRun).debounceArmed = true ∧
      id ∈ (pipeStep s PipeEvent.effectRun).abortedIds) ∧
    (∀ (evs : List PipeEvent) (r : List String), (id, r) ∉ s.published →
      (id, r) ∉ (pipeRun (pipeStep s PipeEvent.effectRun) evs).published) ∧
    (∀ (s2 : PipeState) (j : Nat),
      (pipeStep s2 (PipeEvent.rejectAbort j)).loading = s2.loading ∧
      (pipeStep s2 (PipeEvent.rejectAbort j)).suggestions = s2.suggestions ∧
      (pipeStep s2 (PipeEvent.rejectAbort j)).published = s2.published ∧
      (pipeStep s2 (PipeEvent.rejectAbort j)).errorsLogged
        = s2.errorsLogged) ∧
    (∀ (s2 : PipeState) (j : Nat), j ∈ s2.abortedIds →
      (pipeStep s2 (PipeEvent.rejectOther j)).loading = s2.loading) := by
  have hstepA : abortPending (clearTimer s)
      = ⟨s.nextId, false, none, id :: s.abortedIds, s.loading,
          s.suggestions, s.cache, s.published, s.errorsLogged⟩ := by
    simp [abortPending, clearTimer, hpend]
  have hstepE : pipeStep s PipeEvent.effectRun
      = ⟨s.nextId, true, none, id :: s.abortedIds, true, s.suggestions,
          s.cache, s.published, s.errorsLogged⟩ := by
    simp [pipeStep, armDebounce, startLoading, abortPending, clearTimer,
      hpend]
  refine ⟨⟨?_, ?_, ?_, ?_⟩, ?_, ?_, ?_⟩
  · rw [hstepA]
    exact List.mem_cons_self _ _
  · rw [hstepA]
  · rw [hstepE]
  · rw [hstepE]
    exact List.mem_cons_self _ _
  · intro evs r hpub
    have hsup : superseded id r (pipeStep s PipeEvent.effectRun) := by
      rw [hstepE]
      exact ⟨List.mem_cons_self _ _, hfresh, hcache, hpub⟩
    exact (superseded_run id r evs _ hsup).2.2.2
  · intro s2 j
    exact ⟨rfl, rfl, rfl, rfl⟩
  · intro s2 j hj
    simp [pipeStep, hj]

/-- C3 witness at a concrete input: controller 0 pending, allocator at 1,
empty cache and logs. -/
theorem suggestion_cancellation_witness :
    (0 ∈ (abortPending (clearTimer ⟨1, false, some 0, [], true, [], none, [],
        []⟩)).abortedIds ∧
      (abortPending (clearTimer ⟨1, false, some 0, [], true, [], none, [],
        []⟩)).debounceArmed = false ∧
      (pipeStep ⟨1, false, some 0, [], true, [], none, [], []⟩
        PipeEvent.effectRun).debounceArmed = true ∧
      0 ∈ (pipeStep ⟨1, false, some 0, [], true, [], none, [], []⟩
        PipeEvent.effectRun).abortedIds) ∧
    (∀ (evs : List PipeEvent) (r : List String),
      (0, r) ∉ (⟨1, false, some 0, [], true, [], none, [], []⟩
        : PipeState).published →
      (0, r) ∉ (pipeRun (pipeStep ⟨1, false, some 0, [], true, [], none, [],
        []⟩ PipeEvent.effectRun) evs).published) ∧
    (∀ (s2 : PipeState) (j : Nat),
      (pipeStep s2 (PipeEvent.rejectAbort j)).loading = s2.loading ∧
      (pipeStep s2 (PipeEvent.rejectAbort j)).suggestions = s2.suggestions ∧
      (pipeStep s2 (PipeEvent.rejectAbort j)).published = s2.published ∧
      (pipeStep s2 (PipeEvent.rejectAbort j)).errorsLogged
        = s2.errorsLogged) ∧
    (∀ (s2 : PipeState) (j : Nat), j ∈ s2.abortedIds →
      (pipeStep s2 (PipeEvent.rejectOther j)).loading = s2.loading) :=
  suggestion_cancellation ⟨1, false, some 0, [], true, [], none, [], []⟩ 0
    rfl (by decide) (by simp)

/-! Merge-window dispatch of final recognition events (spec section 4.2).
The store operations it calls (finalizeDraft, appendToLastMessage,
addMessage, updateOrAppendDraft) are embedded from the source; the dispatch
itself has no caller under src and is modelled from the spec. -/

/-- Character-list form of the trim used by the reconciler. -/
def trimChars (l : List Char) : List Char :=
  ((l.dropWhile jsWhitespace).reverse.dropWhile jsWhitespace).reverse

/-- Auxiliary: jsTrim computes trimChars on the character data. -/
theorem jsTrim_eq_trimChars (s : String) : jsTrim s = ⟨trimChars s.data⟩ :=
  rfl

/-- Auxiliary: dropping a prefix cannot lengthen a list. -/
theorem length_dropWhile_le_chars (p : Char → Bool) (l : List Char) :
    (l.dropWhile p).length ≤ l.length :=
  (List.dropWhile_suffix p).length_le

/-- Auxiliary: a dropWhile at least as long as its input is the input. -/
theorem dropWhile_eq_self_of_le (p : Char → Bool) (l : List Char)
    (h : l.length ≤ (l.dropWhile p).length) : l.dropWhile p = l := by
  induction l with
  | nil => rfl
  | cons a r ih =>
      by_cases hp : p a = true
      · rw [List.dropWhile_cons_of_pos hp] at h ⊢
        have hle : (r.dropWhile p).length ≤ r.length :=
          length_dropWhile_le_chars p r
        simp only [List.length_cons] at h
        omega
      · rw [List.dropWhile_cons_of_neg (by simpa using hp)]

/-- Auxiliary: a trim-fixed character list is fixed by the leading and the
trailing strip separately. -/
theorem trim_fixed_parts (d : List Char) (h : trimChars d = d) :
    d.dropWhile jsWhitespace = d ∧
      d.reverse.dropWhile jsWhitespace = d.reverse := by
  have h2 : (trimChars d).length
      ≤ (d.dropWhile jsWhitespace).length := by
    simp only [trimChars, List.length_reverse]
    have := length_dropWhile_le_chars jsWhitespace
      (d.dropWhile jsWhitespace).reverse
    simpa using this
  have hlen : d.length ≤ (d.dropWhile jsWhitespace).length := by
    have hEq := congrArg List.length h
    omega
  have hA : d.dropWhile jsWhitespace = d :=
    dropWhile_eq_self_of_le jsWhitespace d hlen
  refine ⟨hA, ?_⟩
  have hB : (d.reverse.dropWhile jsWhitespace).reverse = d := by
    have hh := h
    unfold trimChars at hh
    rw [hA] at hh
    exact hh
  have := congrArg List.reverse hB
  simpa using this

/-- Auxiliary: the head of a nonempty list fixed by dropWhile does not
satisfy the predicate. -/
theorem head_not_of_dropWhile_eq (p : Char → Bool) (a : Char)
    (r : List Char) (h : (a :: r).dropWhile p = a :: r) : p a = false := by
  by_cases hp : p a = true
  · rw [List.dropWhile_cons_of_pos hp] at h
    have hEq := congrArg List.length h
    have hle : (r.dropWhile p).length ≤ r.length :=
      length_dropWhile_le_chars p r
    simp only [List.length_cons] at hEq
    omega
  · simpa using hp

/-- Auxiliary: joining two trim-fixed nonempty character lists with one space
is trim-fixed. -/
theorem trimChars_join (d1 d2 : List Char)
    (h1 : trimChars d1 = d1) (h1ne : d1 ≠ [])
    (h2 : trimChars d2 = d2) (h2ne : d2 ≠ []) :
    trimChars (d1 ++ ' ' :: d2) = d1 ++ ' ' :: d2 := by
  obtain ⟨hA1, hB1⟩ := trim_fixed_parts d1 h1
  obtain ⟨hA2, hB2⟩ := trim_fixed_parts d2 h2
  have hdropL : (d1 ++ ' ' :: d2).dropWhile jsWhitespace
      = d1 ++ ' ' :: d2 := by
    obtain ⟨a, r, rfl⟩ := List.exists_cons_of_ne_nil h1ne
    have hha : jsWhitespace a = false := head_not_of_dropWhile_eq _ a r hA1
    rw [List.cons_append, List.dropWhile_cons_of_neg (by simp [hha])]
  have hrev : (d1 ++ ' ' :: d2).reverse
      = d2.reverse ++ ' ' :: d1.reverse := by
    rw [List.reverse_append, List.reverse_cons, List.append_assoc]
    simp
  have hdropR : (d1 ++ ' ' :: d2).reverse.dropWhile jsWhitespace
      = (d1 ++ ' ' :: d2).reverse := by
    rw [hrev]
    have h2rne : d2.reverse ≠ [] := by
      simpa using h2ne
    obtain ⟨b, rr, hbr⟩ := List.exists_cons_of_ne_nil h2rne
    have hhb : jsWhitespace b = false := by
      apply head_not_of_dropWhile_eq jsWhitespace b rr
      rw [← hbr]
      exact hB2
    rw [hbr, List.cons_append, List.dropWhile_cons_of_neg (by simp [hhb])]
  unfold trimChars
  rw [hdropL, hdropR, List.reverse_reverse]

/-- Auxiliary: the character data of the space-join. -/
theorem data_join (t1 t2 : String) :
    (t1 ++ " " ++ t2).data = t1.data ++ ' ' :: t2.data := by
  have hsp : (" " : String).data = [' '] := rfl
  simp [String.data_append, hsp]

/-- Auxiliary: joining two trim-fixed nonempty strings with one space is
trim-fixed. -/
theorem jsTrim_join (t1 t2 : String)
    (h1 : jsTrim t1 = t1) (h1ne : t1 ≠ "")
    (h2 : jsTrim t2 = t2) (h2ne : t2 ≠ "") :
    jsTrim (t1 ++ " " ++ t2) = t1 ++ " " ++ t2 := by
  have hd1 : trimChars t1.data = t1.data := congrArg String.data h1
  have hd2 : trimChars t2.data = t2.data := congrArg String.data h2
  have hd1ne : t1.data ≠ [] := by
    intro hnil
    apply h1ne
    have hmk : t1 = ⟨t1.data⟩ := rfl
    rw [hmk, hnil]
  have hd2ne : t2.data ≠ [] := by
    intro hnil
    apply h2ne
    have hmk : t2 = ⟨t2.data⟩ := rfl
    rw [hmk, hnil]
  have hjoin := trimChars_join t1.data t2.data hd1 hd1ne hd2 hd2ne
  rw [jsTrim_eq_trimChars, data_join, hjoin, ← data_join]

/-- Reconciler state for the merge-window dispatch: the store transcript plus
the per-channel time of the last finalization. -/
structure TimedRec where
  transcript : List Message
  userFinalAt : Option Nat
  otherFinalAt : Option Nat
  deriving DecidableEq, Repr

/-- Read the channel's last-finalization clock. -/
def finalAt (s : TimedRec) : Role → Option Nat
  | .user => s.userFinalAt
  | .other => s.otherFinalAt

/-- Write the channel's last-finalization clock. -/
def setFinalAt (s : TimedRec) (r : Role) (t : Nat) : TimedRec :=
  match r with
  | .user => { s with userFinalAt := some t }
  | .other => { s with otherFinalAt := some t }

/-- Merge window (ms) within which consecutive finalized fragments on one
channel are concatenated (spec: fixed short duration on the order of
1.5-2 seconds). -/
def MERGE_WINDOW_MS : Nat := 2000

/-- Modelled from the spec: the dispatch of a final recognition event (spec
section 4.2) has no caller under src — only the store operations it uses are
there — so it is modelled from the spec's words: empty or whitespace-only
text never produces or mutates an entry; a trailing draft of the channel is
converted to non-draft carrying the final text (via the source's
updateOrAppendDraft then finalizeDraft); otherwise, if the trailing entry is
the channel's non-draft entry finalized less than the merge window ago, the
text is appended to it space-joined (via the source's appendToLastMessage);
otherwise a new non-draft entry is appended (via the source's addMessage). -/
def handleFinal (s : TimedRec) (ch : Role) (text : String) (now : Nat) :
    TimedRec :=
  let t := jsTrim text
  if t = "" then s
  else
    match s.transcript.getLast? with
    | some last =>
        if last.role = ch ∧ last.isDraft then
          setFinalAt
            { s with
                transcript :=
                  finalizeDraft (updateOrAppendDraft s.transcript ch t) ch }
            ch now
        else
          match finalAt s ch with
          | some t0 =>
              if last.role = ch ∧ last.isDraft = false ∧
                  now - t0 < MERGE_WINDOW_MS then
                setFinalAt
                  { s with
                      transcript := appendToLastMessage s.transcript ch t }
                  ch now
              else
                setFinalAt
                  { s with transcript := addMessage s.transcript ch t }
                  ch now
          | none =>
              setFinalAt
                { s with transcript := addMessage s.transcript ch t }
                ch now
    | none =>
        setFinalAt
          { s with transcript := addMessage s.transcript ch t }
          ch now

/-- Auxiliary: setFinalAt does not touch the transcript and sets the
channel's clock. -/
theorem setFinalAt_fields (s : TimedRec) (r : Role) (t : Nat) :
    (setFinalAt s r t).transcript = s.transcript ∧
      finalAt (setFinalAt s r t) r = some t := by
  cases r <;> exact ⟨rfl, rfl⟩

/-- Auxiliary: a final event on a channel with no trailing entry of that
channel appends one new non-draft entry and stamps the clock. -/
theorem handleFinal_fresh (s : TimedRec) (ch : Role) (t : String) (now : Nat)
    (ht : jsTrim t = t) (htne : t ≠ "")
    (hlast : ∀ last ∈ s.transcript.getLast?, last.role ≠ ch) :
    handleFinal s ch t now
      = setFinalAt
          { s with transcript := addMessage s.transcript ch t } ch now := by
  cases hl : s.transcript.getLast? with
  | none => simp [handleFinal, ht, htne, hl]
  | some last =>
      have hrole : last.role ≠ ch := hlast last (by rw [hl]; rfl)
      cases hf : finalAt s ch with
      | none => simp [handleFinal, ht, htne, hl, hf, hrole]
      | some t0 => simp [handleFinal, ht, htne, hl, hf, hrole]

/-- Auxiliary: a final event whose channel owns the trailing non-draft entry,
finalized within the merge window, appends through appendToLastMessage. -/
theorem handleFinal_merge_step (s : TimedRec) (ch : Role) (tl t : String)
    (now t0 : Nat) (ht : jsTrim t = t) (htne : t ≠ "")
    (hl : s.transcript.getLast? = some ⟨ch, tl, false⟩)
    (hcl : finalAt s ch = some t0) (hwin : now - t0 < MERGE_WINDOW_MS) :
    handleFinal s ch t now
      = setFinalAt
          { s with transcript := appendToLastMessage s.transcript ch t }
          ch now := by
  simp [handleFinal, ht, htne, hl, hcl, hwin]

/-- C7 (spec-modelled): two final recognition events on the same channel,
the second arriving less than the merge window after the first was finalized,
produce one transcript entry whose text is the first text, a single space,
then the second — not two entries. -/
theorem merge_window_joins_fragments (s0 : TimedRec) (ch : Role)
    (t1 t2 : String) (w1 w2 : Nat)
    (h0 : ∀ last ∈ s0.transcript.getLast?, last.role ≠ ch)
    (h1 : jsTrim t1 = t1) (h1ne : t1 ≠ "")
    (h2 : jsTrim t2 = t2) (h2ne : t2 ≠ "")
    (hw : w2 - w1 < MERGE_WINDOW_MS) :
    (handleFinal (handleFinal s0 ch t1 w1) ch t2 w2).transcript
        = s0.transcript
          ++ [{ role := ch, text := t1 ++ " " ++ t2, isDraft := false }] ∧
    (handleFinal (handleFinal s0 ch t1 w1) ch t2 w2).transcript.length
        = s0.transcript.length + 1 := by
  have hs1 : handleFinal s0 ch t1 w1
      = setFinalAt
          { s0 with transcript := addMessage s0.transcript ch t1 } ch w1 :=
    handleFinal_fresh s0 ch t1 w1 h1 h1ne h0
  have htr1 : (handleFinal s0 ch t1 w1).transcript
      = s0.transcript ++ [⟨ch, t1, false⟩] := by
    rw [hs1, (setFinalAt_fields _ ch w1).1]
    rfl
  have hclock : finalAt (handleFinal s0 ch t1 w1) ch = some w1 := by
    rw [hs1]
    exact (setFinalAt_fields _ ch w1).2
  have hlast1 : (handleFinal s0 ch t1 w1).transcript.getLast?
      = some ⟨ch, t1, false⟩ := by
    rw [htr1]
    exact List.getLast?_concat _
  have hstep2 : handleFinal (handleFinal s0 ch t1 w1) ch t2 w2
      = setFinalAt
          { handleFinal s0 ch t1 w1 with
              transcript :=
                appendToLastMessage
                  (handleFinal s0 ch t1 w1).transcript ch t2 }
          ch w2 :=
    handleFinal_merge_step (handleFinal s0 ch t1 w1) ch t1 t2 w2 w1
      h2 h2ne hlast1 hclock hw
  have happend : appendToLastMessage (handleFinal s0 ch t1 w1).transcript ch t2
      = s0.transcript ++ [⟨ch, t1 ++ " " ++ t2, false⟩] := by
    simp only [appendToLastMessage, hlast1]
    rw [if_pos (And.intro trivial trivial), htr1]
    simp only [setLast, List.dropLast_concat]
    rw [jsTrim_join t1 t2 h1 h1ne h2 h2ne]
  constructor
  · rw [hstep2, (setFinalAt_fields _ ch w2).1]
    simpa using happend
  · rw [hstep2, (setFinalAt_fields _ ch w2).1]
    have hlen := congrArg List.length happend
    simp only [List.length_append, List.length_cons, List.length_nil] at hlen
    simpa using hlen

/-- C7 witness at a concrete input: empty transcript, "Hello" finalized at
time 0 and "world" arriving at time 1000. -/
theorem merge_window_joins_fragments_witness :
    (handleFinal (handleFinal ⟨[], none, none⟩ Role.user "Hello" 0)
        Role.user "world" 1000).transcript
        = ([] : List Message)
          ++ [{ role := Role.user, text := "Hello" ++ " " ++ "world",
                isDraft := false }] ∧
    (handleFinal (handleFinal ⟨[], none, none⟩ Role.user "Hello" 0)
        Role.user "world" 1000).transcript.length
        = ([] : List Message).length + 1 :=
  merge_window_joins_fragments ⟨[], none, none⟩ Role.user "Hello" "world"
    0 1000 (by simp) (by decide) (by decide) (by decide) (by decide)
    (by decide)

/-! Audio capture start (useAudioCapture.startCapture): microphone first,
then either the extension path or the getDisplayMedia fallback for the
"other" channel; onConfig callbacks forward channel configs to the transport
(useLiveStreaming wires onConfig to ws.sendConfig). -/

/-- Channel config emitted by the capture hook to the transport. -/
structure AudioStreamConfig where
  sample_rate : Nat
  channels : Nat
  speaker : Role
  source : Option String
  deriving DecidableEq, Repr

/-- Environment of one startCapture call: which platform calls succeed, the
selected display source's audio tracks, and the config-sent flags. -/
structure CaptureEnv where
  micOk : Bool
  micSampleRate : Nat
  extensionAvailable : Bool
  displayMediaSupported : Bool
  displayPickOk : Bool
  displayAudioTracks : Nat
  displaySampleRate : Nat
  enableOther : Bool
  micConfigSent : Bool
  displayConfigSent : Bool
  deriving DecidableEq, Repr

/-- Outcome of one startCapture call: the resolved value (none models the
catch-all returning null), the error message set, whether
setIsCapturing(true) ran, and the onConfig calls made (these become transport
config messages). -/
structure CaptureOutcome where
  retVal : Option (List AudioStreamConfig)
  error : Option String
  capturingSet : Bool
  configCalls : List AudioStreamConfig
  deriving DecidableEq, Repr

/-- Microphone channel config as built by startCapture. -/
def micConfig (env : CaptureEnv) : AudioStreamConfig :=
  ⟨env.micSampleRate, 1, Role.user, some "mic"⟩

/-- Display-capture channel config as built by startCapture. -/
def displayConfig (env : CaptureEnv) : AudioStreamConfig :=
  ⟨env.displaySampleRate, 1, Role.other, some "display"⟩

/-- Embedding of startCapture: getUserMedia (failure is caught and returns
null); mic config emission guarded by micConfigSent; then for the other
channel either the extension request (config arrives later with the first
chunk), or getDisplayMedia — unsupported and no-audio-track resolve with the
configs gathered so far and a displayable error, a rejected picker is caught
and returns null; finally the display config emission. -/
def startCapture (env : CaptureEnv) : CaptureOutcome :=
  if env.micOk = false then ⟨none, some "getUserMedia failed", false, []⟩
  else
    let calls1 : List AudioStreamConfig :=
      if env.micConfigSent = false then [micConfig env] else []
    if env.enableOther && env.extensionAvailable then
      ⟨some calls1, none, true, calls1⟩
    else if env.enableOther then
      if env.displayMediaSupported = false then
        ⟨some calls1, some "Захват экрана недоступен в этом браузере", true,
          calls1⟩
      else if env.displayPickOk = false then
        ⟨none, some "getDisplayMedia failed", false, calls1⟩
      else if env.displayAudioTracks = 0 then
        ⟨some calls1, some "Выберите экран или вкладку с включённым звуком",
          true, calls1⟩
      else
        let calls2 :=
          if env.displayConfigSent = false then calls1 ++ [displayConfig env]
          else calls1
        ⟨some calls2, none, true, calls2⟩
    else ⟨some calls1, none, true, calls1⟩

/-- Concrete environment for C9: mic fine, no extension, display capture
supported and picked, but the selected source has no audio track. -/
def noAudioTrackEnv : CaptureEnv :=
  ⟨true, 48000, false, true, true, 0, 44100, true, false, false⟩

/-- C9 (counterexample): with no audio track in the selected display source,
startCapture resolves with a displayable error, but a transport config call
HAS been made for the microphone ("user") channel — the claim that no config
message is ever sent for that start attempt is false. -/
theorem capture_no_audio_track_counterexample :
    (startCapture noAudioTrackEnv).error
        = some "Выберите экран или вкладку с включённым звуком" ∧
    (startCapture noAudioTrackEnv).configCalls
        = [⟨48000, 1, Role.user, some "mic"⟩] ∧
    (startCapture noAudioTrackEnv).configCalls ≠ [] ∧
    (startCapture noAudioTrackEnv).retVal
        = some [⟨48000, 1, Role.user, some "mic"⟩] := by
  refine ⟨rfl, rfl, ?_, rfl⟩
  decide

/-- C9 (amended): for every start in which the selected display source has no
audio track (mic acquired, no extension, display capture supported and
picked, fresh config flags), startCapture resolves — returning the configs
gathered so far, not null — with a displayable error message; no config call
is made for the "other" channel; but the microphone ("user") channel config
call has already been made before the missing-audio-track failure is
detected. -/
theorem capture_no_audio_track_amended (env : CaptureEnv)
    (hmic : env.micOk = true) (hext : env.extensionAvailable = false)
    (hsup : env.displayMediaSupported = true)
    (hpick : env.displayPickOk = true) (htracks : env.displayAudioTracks = 0)
    (henable : env.enableOther = true) (hsent : env.micConfigSent = false) :
    (startCapture env).error
        = some "Выберите экран или вкладку с включённым звуком" ∧
    (startCapture env).retVal = some [micConfig env] ∧
    (startCapture env).configCalls = [micConfig env] ∧
    (∀ c ∈ (startCapture env).configCalls, c.speaker ≠ Role.other) ∧
    (startCapture env).capturingSet = true := by
  have hstep : startCapture env
      = ⟨some [micConfig env],
          some "Выберите экран или вкладку с включённым звуком", true,
          [micConfig env]⟩ := by
    simp [startCapture, hmic, hext, hsup, hpick, htracks, henable, hsent]
  rw [hstep]
  refine ⟨rfl, rfl, rfl, ?_, rfl⟩
  intro c hc
  have hcm : c = micConfig env := by simpa using hc
  rw [hcm]
  simp [micConfig]

/-- C9 (amended) witness at the concrete no-audio-track environment. -/
theorem capture_no_audio_track_amended_witness :
    (startCapture noAudioTrackEnv).error
        = some "Выберите экран или вкладку с включённым звуком" ∧
    (startCapture noAudioTrackEnv).retVal
        = some [micConfig noAudioTrackEnv] ∧
    (startCapture noAudioTrackEnv).configCalls = [micConfig noAudioTrackEnv] ∧
    (∀ c ∈ (startCapture noAudioTrackEnv).configCalls,
      c.speaker ≠ Role.other) ∧
    (startCapture noAudioTrackEnv).capturingSet = true :=
  capture_no_audio_track_amended noAudioTrackEnv rfl rfl rfl rfl rfl rfl rfl

/-! Stop sequence (useLiveStreaming.stopStreaming): clear the flush timer,
flush pending locally-recognized text over the transport, stop the browser
recognizer, stop capture, disconnect the transport, clear connection and
recording state.  Each sub-step of the source is total towards its caller:
BrowserSpeechService.stop and useAudioCapture.stopCapture catch internally,
the refs are optional-chained, and the send is guarded — so a failing
sub-step cannot prevent the later ones; a failure oracle only records an
error message.  The transport method sendClientTranscript is modelled from
the spec (its implementation is not under src): it emits one
client-supplied-transcript message carrying the flushed text. -/

/-- Minimum buffered length for the flush (BROWSER_STT_MIN_SEND_CHARS). -/
def BROWSER_STT_MIN_SEND_CHARS : Nat := 6

/-- The five steps of the stop sequence, in order. -/
inductive StopStep
  | flushPending
  | stopRecognizer
  | stopCaptureStep
  | closeTransport
  | clearState
  deriving DecidableEq, Repr

/-- Session state touched by stopStreaming.  The log records each executed
step in order; sentClientTranscripts records every client-supplied-transcript
message emitted over the transport. -/
structure SessionState where
  isRecording : Bool
  flushTimerArmed : Bool
  browserBuffer : String
  speechActive : Bool
  captureActive : Bool
  wsPresent : Bool
  sentClientTranscripts : List String
  connected : Bool
  errorMsg : Option String
  log : List StopStep
  deriving DecidableEq, Repr

/-- Modelled from the spec: sendClientTranscript (not under src) emits one
client-supplied-transcript message with the given text to the backend. -/
def sendClientTranscript (s : SessionState) (text : String) : SessionState :=
  { s with sentClientTranscripts := s.sentClientTranscripts ++ [text] }

/-- Flush step: clear the flush timer, send the trimmed buffer when long
enough and a transport handle exists, clear the buffer. -/
def flushStep (s : SessionState) : SessionState :=
  let s0 := { s with flushTimerArmed := false }
  let pending := jsTrim s0.browserBuffer
  let s1 :=
    if BROWSER_STT_MIN_SEND_CHARS ≤ pending.length ∧ s0.wsPresent = true then
      sendClientTranscript s0 pending
    else s0
  { s1 with
      browserBuffer := ""
      log := s1.log ++ [StopStep.flushPending] }

/-- Recognizer step: BrowserSpeechService.stop catches internally, so the
recognizer is always marked inactive. -/
def recognizerStep (s : SessionState) : SessionState :=
  { s with
      speechActive := false
      log := s.log ++ [StopStep.stopRecognizer] }

/-- Capture step: stopCapture catches internally; on an internal failure it
records the error (and may leave handles), otherwise capture is inactive. -/
def captureStep (fail : Bool) (s : SessionState) : SessionState :=
  if fail then
    { s with
        errorMsg := some "stop capture failed"
        log := s.log ++ [StopStep.stopCaptureStep] }
  else
    { s with
        captureActive := false
        log := s.log ++ [StopStep.stopCaptureStep] }

/-- Transport step: disconnect and null the handle. -/
def transportStep (s : SessionState) : SessionState :=
  { s with
      wsPresent := false
      log := s.log ++ [StopStep.closeTransport] }

/-- Final step: setConnected(false) and setRecording(false). -/
def clearStateStep (s : SessionState) : SessionState :=
  { s with
      connected := false
      isRecording := false
      log := s.log ++ [StopStep.clearState] }

/-- Embedding of stopStreaming: early return when not recording, otherwise
the five steps run unconditionally in order; the oracle says which sub-step
fails internally. -/
def stopStreaming (fails : StopStep → Bool) (s : SessionState) :
    SessionState :=
  if s.isRecording = false then s
  else
    clearStateStep (transportStep (captureStep (fails StopStep.stopCaptureStep)
      (recognizerStep (flushStep s))))

/-- C8 (spec-modelled transport message): when stopStreaming is called while
recording with enough buffered recognized-but-unsent text pending, the whole
stop sequence runs in order for every failure oracle: the pending text is
flushed as a client-supplied-transcript message while the transport handle is
still present, the recognizer is stopped, the capture stop runs, the
transport is closed, and connection and recording state are cleared. -/
theorem stop_sequence_runs_fully (s : SessionState) (fails : StopStep → Bool)
    (hrec : s.isRecording = true)
    (hpend : BROWSER_STT_MIN_SEND_CHARS ≤ (jsTrim s.browserBuffer).length)
    (hws : s.wsPresent = true) :
    (stopStreaming fails s).sentClientTranscripts
        = s.sentClientTranscripts ++ [jsTrim s.browserBuffer] ∧
    (stopStreaming fails s).browserBuffer = "" ∧
    (stopStreaming fails s).flushTimerArmed = false ∧
    (stopStreaming fails s).speechActive = false ∧
    (stopStreaming fails s).wsPresent = false ∧
    (stopStreaming fails s).connected = false ∧
    (stopStreaming fails s).isRecording = false ∧
    (stopStreaming fails s).log
        = s.log ++ [StopStep.flushPending, StopStep.stopRecognizer,
            StopStep.stopCaptureStep, StopStep.closeTransport,
            StopStep.clearState] := by
  have hflush : flushStep s
      = { s with
            flushTimerArmed := false
            browserBuffer := ""
            sentClientTranscripts :=
              s.sentClientTranscripts ++ [jsTrim s.browserBuffer]
            log := s.log ++ [StopStep.flushPending] } := by
    simp [flushStep, sendClientTranscript, hpend, hws]
  cases hfail : fails StopStep.stopCaptureStep with
  | false =>
      have hstep : stopStreaming fails s
          = clearStateStep (transportStep (captureStep false
              (recognizerStep (flushStep s)))) := by
        simp [stopStreaming, hrec, hfail]
      rw [hstep, hflush]
      simp [clearStateStep, transportStep, captureStep, recognizerStep]
  | true =>
      have hstep : stopStreaming fails s
          = clearStateStep (transportStep (captureStep true
              (recognizerStep (flushStep s)))) := by
        simp [stopStreaming, hrec, hfail]
      rw [hstep, hflush]
      simp [clearStateStep, transportStep, captureStep, recognizerStep]

/-- C8 witness at a concrete input: recording with the buffered phrase
"hello world" pending and every sub-step failing internally. -/
theorem stop_sequence_runs_fully_witness :
    (stopStreaming (fun _ => true)
        ⟨true, true, "hello world", true, true, true, [], true, none,
          []⟩).sentClientTranscripts
        = ([] : List String) ++ [jsTrim "hello world"] ∧
    (stopStreaming (fun _ => true)
        ⟨true, true, "hello world", true, true, true, [], true, none,
          []⟩).browserBuffer = "" ∧
    (stopStreaming (fun _ => true)
        ⟨true, true, "hello world", true, true, true, [], true, none,
          []⟩).flushTimerArmed = false ∧
    (stopStreaming (fun _ => true)
        ⟨true, true, "hello world", true, true, true, [], true, none,
          []⟩).speechActive = false ∧
    (stopStreaming (fun _ => true)
        ⟨true, true, "hello world", true, true, true, [], true, none,
          []⟩).wsPresent = false ∧
    (stopStreaming (fun _ => true)
        ⟨true, true, "hello world", true, true, true, [], true, none,
          []⟩).connected = false ∧
    (stopStreaming (fun _ => true)
        ⟨true, true, "hello world", true, true, true, [], true, none,
          []⟩).isRecording = false ∧
    (stopStreaming (fun _ => true)
        ⟨true, true, "hello world", true, true, true, [], true, none,
          []⟩).log
        = ([] : List StopStep)
          ++ [StopStep.flushPending, StopStep.stopRecognizer,
              StopStep.stopCaptureStep, StopStep.closeTransport,
              StopStep.clearState] :=
  stop_sequence_runs_fully
    ⟨true, true, "hello world", true, true, true, [], true, none, []⟩
    (fun _ => true) rfl (by decide) rfl

end VoiceCoPilot
